import Mathlib

/-!
Verification of the automatic USDC payment monitor in `server-automatic.js`
(class `AutomaticUSDCMonitor`).  The mutable fields of the monitor object
(`pendingMints`, `processedTxHashes`, `mintQueue`, `isProcessing`) become an
explicit `Monitor` state record; each method becomes a state-passing function.
JavaScript `Map`s are modelled as insertion-ordered association lists (a `set`
of an existing key updates it in place, a `set` of a new key appends), and
JavaScript `Set`s as insertion-ordered duplicate-free lists, matching the
iteration-order semantics the source relies on.  Timestamps (`Date.now()`) and
externally produced values (random payment ids, transaction outcomes) are
passed in as parameters.
-/

namespace OneMint

/-- ASCII lower-casing of one character (`A`–`Z` shifted down by 32). -/
def lowerChar (c : Char) : Char :=
  if 65 ≤ c.toNat ∧ c.toNat ≤ 90 then Char.ofNat (c.toNat + 32) else c

/-- JavaScript `String.prototype.toLowerCase` restricted to the ASCII range,
which is all the source applies it to (hex addresses). -/
def lowerStr (s : String) : String := ⟨s.data.map lowerChar⟩

/-- The per-request record stored in `pendingMints` (`paymentId -> data`).
Fields that the source leaves `undefined` until assigned are `Option`s. -/
structure MintData where
  userAddress : String
  timestamp : Nat
  status : String
  txHash : Option String := none
  paidAt : Option Nat := none
  mintTxHash : Option String := none
  completedAt : Option Nat := none
  deriving Repr, DecidableEq

/-- An element of `this.mintQueue`: `{paymentId, userAddress, txHash}`. -/
structure QueueItem where
  paymentId : String
  userAddress : String
  txHash : String
  deriving Repr, DecidableEq

/-- A decoded `Transfer(from, to, value)` log as consumed by
`handleUSDCTransfer` (fields as returned by `iface.parseLog`). -/
structure TransferLog where
  transactionHash : String
  fromAddr : String
  toAddr : String
  value : Nat
  deriving Repr, DecidableEq

/-- Result of the awaited external call pair
`contract.mintTo(...)` / `tx.wait()`: either a confirmed receipt or a thrown
error with its message. -/
inductive MintOutcome where
  | success (receiptHash : String) (blockNumber : Nat) (now : Nat)
  | failure (msg : String)
  deriving Repr, DecidableEq

/-- The mutable state of one `AutomaticUSDCMonitor` instance. -/
structure Monitor where
  pendingMints : List (String × MintData)
  processedTxHashes : List String
  mintQueue : List QueueItem
  isProcessing : Bool
  paymentAddress : String
  deriving Repr, DecidableEq

/-- The freshly constructed monitor: empty ledger, empty dedup set, empty
queue, not processing. -/
def initMonitor (paymentAddress : String) : Monitor :=
  { pendingMints := []
    processedTxHashes := []
    mintQueue := []
    isProcessing := false
    paymentAddress := paymentAddress }

/-- `Map.prototype.get` on the insertion-ordered association list. -/
def pmGet (k : String) (m : List (String × MintData)) : Option MintData :=
  (m.find? (fun p => p.1 == k)).map (fun p => p.2)

/-- `Map.prototype.set`: update in place when the key exists (JavaScript
`Map` keeps the original insertion position on update), append otherwise. -/
def pmSet (k : String) (v : MintData) :
    List (String × MintData) → List (String × MintData)
  | [] => [(k, v)]
  | p :: t => if p.1 = k then (k, v) :: t else p :: pmSet k v t

/-- `Set.prototype.add`: a no-op when the element is present, append
otherwise. -/
def setAdd (h : String) : List String → List String
  | [] => [h]
  | x :: t => if x = h then x :: t else x :: setAdd h t

/-- `createPaymentInstructions` (the state-changing part): store a new
pending record in `waiting_for_payment` under the freshly generated
`paymentId`, with the caller's address lower-cased.  The generated id
(`crypto.randomBytes(16).toString('hex')`) and `Date.now()` are parameters;
the returned instruction object carries `pid` back to the caller. -/
def createPaymentInstructions (pid : String) (now : Nat) (userAddress : String)
    (st : Monitor) : Monitor :=
  { st with
      pendingMints :=
        pmSet pid
          { userAddress := lowerStr userAddress
            timestamp := now
            status := "waiting_for_payment" } st.pendingMints }

/-- `handleUSDCTransfer`.  Steps of the source, in order: return early when
the transaction hash was already processed; decode the log and lower-case the
addresses; return early unless the recipient is the payment address and the
amount is at least 1000000; mark the hash processed; look for the first
pending record for the sender in `waiting_for_payment` (insertion-order scan
of the `Map`); if found, flip it to `payment_received`, record `txHash` and
`paidAt`, and push a queue item; otherwise push a queue item under a fresh
synthetic `'auto-...'` id without touching `pendingMints`.  The trailing
`this.processMintQueue()` call suspends on an external transaction before any
state change, so queue draining is modelled by separate
`processMintQueueStep` applications.  `autoId` stands for
`'auto-' + crypto.randomBytes(8).toString('hex')`. -/
def handleUSDCTransfer (log : TransferLog) (now : Nat) (autoId : String)
    (st : Monitor) : Monitor :=
  if st.processedTxHashes.contains log.transactionHash then st
  else
    let fromA := lowerStr log.fromAddr
    let toA := lowerStr log.toAddr
    if toA ≠ lowerStr st.paymentAddress ∨ log.value < 1000000 then st
    else
      let st1 := { st with
        processedTxHashes := setAdd log.transactionHash st.processedTxHashes }
      match st1.pendingMints.find?
          (fun p => p.2.userAddress == fromA &&
            p.2.status == "waiting_for_payment") with
      | some (pid, d) =>
        { st1 with
            pendingMints :=
              pmSet pid
                { d with
                    status := "payment_received"
                    txHash := some log.transactionHash
                    paidAt := some now } st1.pendingMints
            mintQueue := st1.mintQueue ++
              [{ paymentId := pid, userAddress := fromA,
                 txHash := log.transactionHash }] }
      | none =>
        { st1 with
            mintQueue := st1.mintQueue ++
              [{ paymentId := autoId, userAddress := fromA,
                 txHash := log.transactionHash }] }

/-- One iteration of the `while (this.mintQueue.length > 0)` loop of
`processMintQueue`, given the outcome of the awaited external mint call.
The returned `Nat` is the backoff the iteration sleeps (milliseconds).

On success the source then runs the best-effort x402scan report (its own
`try`/`catch`, no monitor-state effect) and reaches
`if (this.pendingMints.has(mintRequest.paymentId)) { mintData.mintTxHash =
receipt.hash; mintData.completedAt = Date.now(); }`.  No `mintData` variable
is declared anywhere in `processMintQueue` or the enclosing module scope, so
when the `has` test is true this line throws a `ReferenceError`, which the
surrounding `catch (error)` handles exactly like a failed mint: the item is
pushed back onto the queue and the loop sleeps 30000 ms.  When the `has` test
is false (synthetic `'auto-'` items) the iteration completes and the item is
discarded.  In no case does the source's loop body modify `pendingMints`. -/
def processMintQueueStep (o : MintOutcome) (st : Monitor) : Monitor × Nat :=
  match st.mintQueue with
  | [] => (st, 0)
  | item :: rest =>
    let st1 := { st with mintQueue := rest }
    match o with
    | .failure _ => ({ st1 with mintQueue := st1.mintQueue ++ [item] }, 30000)
    | .success _ _ _ =>
      if (pmGet item.paymentId st1.pendingMints).isSome then
        ({ st1 with mintQueue := st1.mintQueue ++ [item] }, 30000)
      else
        (st1, 0)

/-- The drain loop of `processMintQueue`: guarded by the `isProcessing` flag,
it consumes queue items one external mint outcome at a time until the queue
is empty (or the supplied outcome sequence, the fuel of the possibly
unbounded source loop, runs out). -/
def drainQueue : List MintOutcome → Monitor → Monitor
  | [], st => st
  | o :: os, st =>
    if st.mintQueue.isEmpty then st
    else drainQueue os (processMintQueueStep o st).1

/-- `processMintQueue` entry: returns immediately when a drain is already in
flight, otherwise sets the guard, drains, and clears the guard. -/
def processMintQueue (outcomes : List MintOutcome) (st : Monitor) : Monitor :=
  if st.isProcessing then st
  else
    let st1 := drainQueue outcomes { st with isProcessing := true }
    { st1 with isProcessing := false }

/-- The record returned by `getPaymentStatus`; absent JavaScript object
fields are `none`. -/
structure StatusResult where
  found : Bool
  status : Option String := none
  error : Option String := none
  message : Option String := none
  userAddress : Option String := none
  paymentTxHash : Option String := none
  mintTxHash : Option String := none
  timestamp : Option Nat := none
  paidAt : Option Nat := none
  completedAt : Option Nat := none
  deriving Repr, DecidableEq

/-- `getPaymentStatus`, in state-passing style so that its (lack of) effect
on the monitor is part of the definition: unknown id reports `found: false`;
a record older than 30 minutes reports `expired` (the record itself is left
in the `Map`); otherwise the stored fields are echoed. -/
def getPaymentStatus (pid : String) (now : Nat) (st : Monitor) :
    StatusResult × Monitor :=
  match pmGet pid st.pendingMints with
  | none => ({ found := false, error := some "Payment ID not found" }, st)
  | some d =>
    if now - d.timestamp > 30 * 60 * 1000 then
      ({ found := true, status := some "expired",
         message := some "Payment window expired" }, st)
    else
      ({ found := true, status := some d.status,
         userAddress := some d.userAddress,
         paymentTxHash := d.txHash,
         mintTxHash := d.mintTxHash,
         timestamp := some d.timestamp,
         paidAt := d.paidAt,
         completedAt := d.completedAt }, st)

/-- `cleanupExpired`: delete every pending record older than 30 minutes,
then trim the processed-hash set to its most recent 1000 elements when it
exceeds 1000 (`Array.from(set).slice(-1000)` keeps the tail in insertion
order). -/
def cleanupExpired (now : Nat) (st : Monitor) : Monitor :=
  let pm := st.pendingMints.filter
    (fun p => ¬ (now - p.2.timestamp > 30 * 60 * 1000))
  let tx :=
    if st.processedTxHashes.length > 1000 then
      st.processedTxHashes.drop (st.processedTxHashes.length - 1000)
    else st.processedTxHashes
  { st with pendingMints := pm, processedTxHashes := tx }

/-- The operations that can touch a monitor's state, for stating invariants
quantified over every operation of the source. -/
inductive Op where
  | create (pid : String) (now : Nat) (userAddress : String)
  | transfer (log : TransferLog) (now : Nat) (autoId : String)
  | dispatch (o : MintOutcome)
  | status (pid : String) (now : Nat)
  | sweep (now : Nat)
  deriving Repr, DecidableEq

/-- Apply one operation to the monitor state. -/
def applyOp : Op → Monitor → Monitor
  | .create pid now a, st => createPaymentInstructions pid now a st
  | .transfer log now auto, st => handleUSDCTransfer log now auto st
  | .dispatch o, st => (processMintQueueStep o st).1
  | .status pid now, st => (getPaymentStatus pid now st).2
  | .sweep now, st => cleanupExpired now st

/-- Side condition a source run satisfies by construction: a `create` stores
under a freshly generated 128-bit random id, i.e. one not already a key of
the `Map`. -/
def freshOp : Op → Monitor → Prop
  | .create pid _ _, st => pmGet pid st.pendingMints = none
  | _, _ => True

/-- Ledger keys are pairwise distinct — automatic for a JavaScript `Map`,
recorded explicitly on the association-list model. -/
def KeysNodup (st : Monitor) : Prop :=
  (st.pendingMints.map Prod.fst).Nodup

/-- Reachability invariant: a record still in `waiting_for_payment` has no
`txHash` yet (matching sets `txHash` and leaves the state simultaneously). -/
def WaitingNoTx (st : Monitor) : Prop :=
  ∀ p ∈ st.pendingMints,
    p.2.status = "waiting_for_payment" → p.2.txHash = none

theorem pmGet_cons (k : String) (p : String × MintData)
    (t : List (String × MintData)) :
    pmGet k (p :: t) = if p.1 = k then some p.2 else pmGet k t := by
  by_cases h : p.1 = k <;> simp [pmGet, List.find?_cons, h]

theorem pmGet_set_self (k : String) (v : MintData)
    (m : List (String × MintData)) : pmGet k (pmSet k v m) = some v := by
  induction m with
  | nil => simp [pmSet, pmGet_cons]
  | cons p t ih =>
    by_cases h : p.1 = k
    · simp [pmSet, h, pmGet_cons]
    · simp [pmSet, h, pmGet_cons, ih]

theorem pmGet_set_ne (k k' : String) (v : MintData)
    (m : List (String × MintData)) (h : k' ≠ k) :
    pmGet k' (pmSet k v m) = pmGet k' m := by
  induction m with
  | nil => simp [pmSet, pmGet_cons, pmGet, Ne.symm h]
  | cons p t ih =>
    by_cases hp : p.1 = k
    · simp [pmSet, hp, pmGet_cons, Ne.symm h]
    · simp [pmSet, hp, pmGet_cons, ih]

theorem mem_of_pmGet (k : String) (v : MintData)
    (m : List (String × MintData)) (h : pmGet k m = some v) : (k, v) ∈ m := by
  induction m with
  | nil => simp [pmGet] at h
  | cons p t ih =>
    rw [pmGet_cons] at h
    by_cases hp : p.1 = k
    · simp [hp] at h
      have hpv : p = (k, v) := by
        cases p with
        | mk a b => simp at hp h; simp [hp, h]
      rw [← hpv]
      exact List.mem_cons_self p t
    · simp [hp] at h
      exact List.mem_cons_of_mem p (ih h)

theorem not_mem_keys_of_pmGet_none (k : String)
    (m : List (String × MintData)) (h : pmGet k m = none) :
    k ∉ m.map Prod.fst := by
  induction m with
  | nil => simp
  | cons p t ih =>
    rw [pmGet_cons] at h
    by_cases hp : p.1 = k
    · simp [hp] at h
    · simp [hp] at h
      simp only [List.map_cons, List.mem_cons]
      push_neg
      exact ⟨fun hk => hp hk.symm, ih h⟩

theorem pmSet_of_not_mem (k : String) (v : MintData)
    (m : List (String × MintData)) (h : k ∉ m.map Prod.fst) :
    pmSet k v m = m ++ [(k, v)] := by
  induction m with
  | nil => simp [pmSet]
  | cons p t ih =>
    have h1 : ¬ p.1 = k := by
      intro hc
      exact h (by simp [hc])
    have h2 : k ∉ t.map Prod.fst := by
      intro hc
      exact h (by simp [hc])
    simp [pmSet, h1, ih h2]

theorem pmGet_append_left (k : String) (v : MintData)
    (m l : List (String × MintData)) (h : pmGet k m = some v) :
    pmGet k (m ++ l) = some v := by
  simp only [pmGet, List.find?_append]
  simp only [pmGet] at h
  cases hf : m.find? (fun p => p.1 == k) with
  | none => simp [hf] at h
  | some p => simp [hf] at h ⊢; simp [h]

theorem pmGet_append_right (k : String)
    (m l : List (String × MintData)) (h : pmGet k m = none) :
    pmGet k (m ++ l) = pmGet k l := by
  simp only [pmGet, List.find?_append]
  simp only [pmGet] at h
  cases hf : m.find? (fun p => p.1 == k) with
  | none => simp
  | some p => simp [hf] at h

theorem mem_pmSet (k : String) (v : MintData) (x : String × MintData)
    (m : List (String × MintData)) (h : x ∈ pmSet k v m) :
    x = (k, v) ∨ x ∈ m := by
  induction m with
  | nil => simp [pmSet] at h; simp [h]
  | cons p t ih =>
    by_cases hp : p.1 = k
    · simp [pmSet, hp] at h
      rcases h with h | h
      · left; exact h
      · right; simp [h]
    · simp [pmSet, hp] at h
      rcases h with h | h
      · right; simp [h]
      · rcases ih h with h | h
        · left; exact h
        · right; simp [h]

theorem pmSet_keys_of_mem (k : String) (v : MintData)
    (m : List (String × MintData)) (h : k ∈ m.map Prod.fst) :
    (pmSet k v m).map Prod.fst = m.map Prod.fst := by
  induction m with
  | nil => simp at h
  | cons p t ih =>
    by_cases hp : p.1 = k
    · simp [pmSet, hp]
    · have h' : k ∈ t.map Prod.fst := by
        simp only [List.map_cons, List.mem_cons] at h
        rcases h with h | h
        · exact absurd h.symm hp
        · exact h
      simp [pmSet, hp, ih h']

theorem pmGet_unique (k : String) (a b : MintData)
    (m : List (String × MintData)) (hnd : (m.map Prod.fst).Nodup)
    (h1 : (k, a) ∈ m) (h2 : (k, b) ∈ m) : a = b := by
  induction m with
  | nil => simp at h1
  | cons p t ih =>
    simp only [List.map_cons, List.nodup_cons] at hnd
    rcases List.mem_cons.mp h1 with h1 | h1 <;>
      rcases List.mem_cons.mp h2 with h2 | h2
    · rw [← h1] at h2
      exact (congrArg Prod.snd h2).symm
    · exfalso
      have hk : p.1 = k := by rw [← h1]
      apply hnd.1
      rw [hk]
      exact List.mem_map_of_mem Prod.fst h2
    · exfalso
      have hk : p.1 = k := by rw [← h2]
      apply hnd.1
      rw [hk]
      exact List.mem_map_of_mem Prod.fst h1
    · exact ih hnd.2 h1 h2

theorem pmGet_filter_none (k : String) (e : MintData)
    (pred : String × MintData → Bool) (m : List (String × MintData))
    (hnd : (m.map Prod.fst).Nodup) (h : (k, e) ∈ m)
    (hp : pred (k, e) = false) : pmGet k (m.filter pred) = none := by
  cases hfind : pmGet k (m.filter pred) with
  | none => rfl
  | some e' =>
    exfalso
    have hmem := mem_of_pmGet k e' (m.filter pred) hfind
    have hmem' := List.mem_filter.mp hmem
    have he : e' = e := pmGet_unique k e' e m hnd hmem'.1 h
    rw [he] at hmem'
    rw [hp] at hmem'
    exact Bool.false_ne_true hmem'.2

theorem processMintQueueStep_pendingMints (o : MintOutcome) (st : Monitor) :
    (processMintQueueStep o st).1.pendingMints = st.pendingMints := by
  unfold processMintQueueStep
  cases st.mintQueue with
  | nil => rfl
  | cons item rest =>
    cases o with
    | failure msg => rfl
    | success h b t =>
      by_cases hh : (pmGet item.paymentId st.pendingMints).isSome <;>
        simp [hh]

theorem getPaymentStatus_snd (pid : String) (now : Nat) (st : Monitor) :
    (getPaymentStatus pid now st).2 = st := by
  unfold getPaymentStatus
  cases pmGet pid st.pendingMints with
  | none => rfl
  | some d =>
    by_cases hd : now - d.timestamp > 30 * 60 * 1000 <;> simp [hd]

theorem mem_setAdd (h : String) (s : List String) : h ∈ setAdd h s := by
  induction s with
  | nil => simp [setAdd]
  | cons x t ih =>
    by_cases hx : x = h
    · simp [setAdd, hx]
    · simp [setAdd, hx]
      right
      exact ih

/-- A concrete run of the monitor used to instantiate the theorems below:
a fresh monitor for collection address `0xPAY`, two requests `p1` and `p2`
from the same user `0xAAA`, and a qualifying 1-USDC transfer from that
user. -/
def exInit : Monitor := initMonitor "0xPAY"

/-- Monitor after the first `request-mint` call stored request `p1`. -/
def exOne : Monitor := createPaymentInstructions "p1" 100 "0xAAA" exInit

/-- Monitor after a second `request-mint` call stored request `p2`. -/
def exTwo : Monitor := createPaymentInstructions "p2" 200 "0xAAA" exOne

/-- A qualifying transfer of exactly 1000000 base units from `0xAAA`. -/
def exLog : TransferLog :=
  { transactionHash := "0xtx1", fromAddr := "0xAAA", toAddr := "0xPAY",
    value := 1000000 }

/-- Monitor after the qualifying transfer was matched to `p1`. -/
def exPaid : Monitor := handleUSDCTransfer exLog 300 "auto-1" exTwo

/-- A qualifying transfer from `0xBBB`, an address with no request. -/
def exSynthLog : TransferLog :=
  { transactionHash := "0xtx2", fromAddr := "0xBBB", toAddr := "0xPAY",
    value := 2000000 }

/-- Monitor after the unmatched transfer took the synthetic path. -/
def exSynth : Monitor := handleUSDCTransfer exSynthLog 500 "auto-3" exInit

/-- A monitor holding one request `p3` created at time 0. -/
def exLate : Monitor := createPaymentInstructions "p3" 0 "0xCCC" exInit

/-- A qualifying transfer from `0xCCC` whose handling time, 31 minutes,
is past the 30-minute window of request `p3`. -/
def exLateLog : TransferLog :=
  { transactionHash := "0xtx9", fromAddr := "0xCCC", toAddr := "0xPAY",
    value := 1000000 }

/-- Monitor after the late transfer was handled. -/
def exLatePaid : Monitor :=
  handleUSDCTransfer exLateLog (31 * 60 * 1000) "auto-9" exLate

/-- C1: the code at the claimed behaviour's input. In `exPaid` the ledger
holds request `p1` in `payment_received` and the queue holds its item.
Dequeuing that item with a successful `mintTo` call leaves the ledger record
completely unchanged — its status is still `payment_received` (it was never
set to `minting` and never becomes `completed`), `mintTxHash` and
`completedAt` stay unset — and the already-minted item is pushed back onto
the queue: the status-update block of `processMintQueue` reads the
undeclared variable `mintData`, and the resulting `ReferenceError` lands in
the retry `catch`. -/
theorem c1_success_update_lost :
    (pmGet "p1" exPaid.pendingMints).map (fun d => d.status)
        = some "payment_received" ∧
    exPaid.mintQueue =
      [{ paymentId := "p1", userAddress := "0xaaa", txHash := "0xtx1" }] ∧
    (processMintQueueStep (.success "0xmint" 21000000 700)
        exPaid).1.pendingMints = exPaid.pendingMints ∧
    (pmGet "p1" (processMintQueueStep (.success "0xmint" 21000000 700)
        exPaid).1.pendingMints).map
      (fun d => (d.status, d.mintTxHash, d.completedAt))
        = some ("payment_received", none, none) ∧
    (processMintQueueStep (.success "0xmint" 21000000 700) exPaid).1.mintQueue
        = exPaid.mintQueue := by
  decide

/-- C2, counterexample: a qualifying transfer from `0xBBB`, an address with
no pending request, does not create any ledger record — `pendingMints` stays
empty, and the status lookup of the synthetic payment id returns
`found: false` — even though exactly one queue item is enqueued.  This
refutes the claim that a new MintRequest is stored in the ledger so that a
subsequent status lookup by its paymentId finds it. -/
theorem c2_synthetic_not_stored :
    exSynth.pendingMints = [] ∧
    exSynth.mintQueue =
      [{ paymentId := "auto-3", userAddress := "0xbbb", txHash := "0xtx2" }] ∧
    (getPaymentStatus "auto-3" 600 exSynth).1.found = false := by
  decide

/-- C2, amended: a qualifying, not-yet-seen transfer whose sender has no
pending `waiting_for_payment` request enqueues exactly one MintQueueItem
carrying the fresh synthetic id, the lower-cased sender and the transfer
hash, marks the hash processed, and leaves the ledger untouched (no
MintRequest is created). -/
theorem c2_synthetic_enqueue_only (log : TransferLog) (now : Nat)
    (autoId : String) (st : Monitor)
    (hdup : log.transactionHash ∉ st.processedTxHashes)
    (hto : lowerStr log.toAddr = lowerStr st.paymentAddress)
    (hval : 1000000 ≤ log.value)
    (hmatch : st.pendingMints.find?
      (fun p => p.2.userAddress == lowerStr log.fromAddr &&
        p.2.status == "waiting_for_payment") = none) :
    (handleUSDCTransfer log now autoId st).pendingMints = st.pendingMints ∧
    (handleUSDCTransfer log now autoId st).mintQueue =
      st.mintQueue ++
        [{ paymentId := autoId, userAddress := lowerStr log.fromAddr,
           txHash := log.transactionHash }] ∧
    (handleUSDCTransfer log now autoId st).processedTxHashes =
      setAdd log.transactionHash st.processedTxHashes := by
  unfold handleUSDCTransfer
  simp [hdup, hto, Nat.not_lt.mpr hval, hmatch]

/-- C2, witness for the amended statement at the concrete run. -/
theorem c2_synthetic_enqueue_only_witness :
    (handleUSDCTransfer exSynthLog 500 "auto-3" exInit).pendingMints =
      exInit.pendingMints ∧
    (handleUSDCTransfer exSynthLog 500 "auto-3" exInit).mintQueue =
      exInit.mintQueue ++
        [{ paymentId := "auto-3", userAddress := lowerStr exSynthLog.fromAddr,
           txHash := exSynthLog.transactionHash }] ∧
    (handleUSDCTransfer exSynthLog 500 "auto-3" exInit).processedTxHashes =
      setAdd exSynthLog.transactionHash exInit.processedTxHashes :=
  c2_synthetic_enqueue_only exSynthLog 500 "auto-3" exInit
    (by decide) (by decide) (by decide) (by decide)

/-- C3, counterexample: after a failed `mintTo` for the item of request
`p1`, the ledger record's status is still `payment_received`, not
`mint_failed`, and no error message is recorded anywhere in the record
(the source has no code assigning either).  The retry half of the claim
does hold: the item is back on the queue. -/
theorem c3_no_mint_failed_status :
    (pmGet "p1" (processMintQueueStep (.failure "boom")
        exPaid).1.pendingMints).map (fun d => d.status)
      = some "payment_received" ∧
    (pmGet "p1" (processMintQueueStep (.failure "boom")
        exPaid).1.pendingMints).map (fun d => d.status)
      ≠ some "mint_failed" ∧
    (processMintQueueStep (.failure "boom") exPaid).1.mintQueue =
      exPaid.mintQueue := by
  decide

/-- C3, amended: when the `mintTo` submission for the queue's head item
fails, the item is pushed back to the end of the queue and the loop sleeps
the fixed 30000 ms backoff before the next attempt, so the item is retried;
the ledger is not touched: no status transition to `mint_failed` happens and
no error message is recorded. -/
theorem c3_failure_requeues_without_ledger_change (msg : String)
    (item : QueueItem) (rest : List QueueItem) (st : Monitor)
    (h : st.mintQueue = item :: rest) :
    (processMintQueueStep (.failure msg) st).1.pendingMints =
      st.pendingMints ∧
    (processMintQueueStep (.failure msg) st).1.mintQueue = rest ++ [item] ∧
    (processMintQueueStep (.failure msg) st).2 = 30000 := by
  simp [processMintQueueStep, h]

/-- C3, witness for the amended statement at the concrete run. -/
theorem c3_failure_requeues_without_ledger_change_witness :
    (processMintQueueStep (.failure "boom") exPaid).1.pendingMints =
      exPaid.pendingMints ∧
    (processMintQueueStep (.failure "boom") exPaid).1.mintQueue =
      [] ++
        [{ paymentId := "p1", userAddress := "0xaaa",
           txHash := "0xtx1" }] ∧
    (processMintQueueStep (.failure "boom") exPaid).2 = 30000 :=
  c3_failure_requeues_without_ledger_change "boom"
    { paymentId := "p1", userAddress := "0xaaa", txHash := "0xtx1" }
    [] exPaid (by decide)

/-- C5: for a transaction hash in the processed set the handler is a
complete no-op — the returned state is the input state, so there is no
ledger mutation, no enqueue and no mint attempt.  Both the push path (the
subscription callback) and the poll path invoke this same handler. -/
theorem c5_processed_hash_is_noop (log : TransferLog) (now : Nat)
    (autoId : String) (st : Monitor)
    (h : log.transactionHash ∈ st.processedTxHashes) :
    handleUSDCTransfer log now autoId st = st := by
  unfold handleUSDCTransfer
  simp [h]

/-- C5, witness: redelivering the already-processed transfer of the
concrete run (as either path would) changes nothing. -/
theorem c5_processed_hash_is_noop_witness :
    "0xtx1" ∈ exPaid.processedTxHashes ∧
    handleUSDCTransfer exLog 400 "auto-2" exPaid = exPaid :=
  ⟨by decide, c5_processed_hash_is_noop exLog 400 "auto-2" exPaid (by decide)⟩

/-- C8: a payment id absent from the ledger yields `found: false`; a stored
record whose age exceeds the 30-minute window yields status `expired` while
the record itself is still retrievable afterwards (the sweep, not the status
query, removes it). -/
theorem c8_status_unknown_and_expired (pid : String) (now : Nat)
    (st : Monitor) :
    (pmGet pid st.pendingMints = none →
      (getPaymentStatus pid now st).1.found = false) ∧
    (∀ e, pmGet pid st.pendingMints = some e →
      now - e.timestamp > 30 * 60 * 1000 →
      (getPaymentStatus pid now st).1.status = some "expired" ∧
      pmGet pid (getPaymentStatus pid now st).2.pendingMints = some e) := by
  constructor
  · intro h
    simp [getPaymentStatus, h]
  · intro e h hage
    simp [getPaymentStatus, h, hage]

/-- C8, witness: the unknown id `nope` on the concrete run, and the
over-age record `p3` at 31 minutes. -/
theorem c8_status_unknown_and_expired_witness :
    ((getPaymentStatus "nope" 300 exLate).1.found = false) ∧
    ((getPaymentStatus "p3" (31 * 60 * 1000) exLate).1.status =
        some "expired" ∧
      pmGet "p3" (getPaymentStatus "p3" (31 * 60 * 1000)
        exLate).2.pendingMints =
        some { userAddress := "0xccc", timestamp := 0,
               status := "waiting_for_payment" }) :=
  ⟨(c8_status_unknown_and_expired "nope" 300 exLate).1 (by decide),
   (c8_status_unknown_and_expired "p3" (31 * 60 * 1000) exLate).2
     { userAddress := "0xccc", timestamp := 0,
       status := "waiting_for_payment" } (by decide) (by decide)⟩

/-- C10: the status query is a pure read.  Its returned monitor is the input
monitor — ledger, processed-transfer set and mint queue all unchanged — a
`found` result (in particular an `expired` one) implies the record is still
stored, and the record is removed only by `cleanupExpired`, which does
delete an over-age record (key uniqueness of the `Map` assumed). -/
theorem c10_status_query_is_pure (pid : String) (now : Nat) (st : Monitor) :
    (getPaymentStatus pid now st).2 = st ∧
    ((getPaymentStatus pid now st).1.found = true →
      ∃ e, pmGet pid st.pendingMints = some e) ∧
    (∀ e, KeysNodup st → pmGet pid st.pendingMints = some e →
      now - e.timestamp > 30 * 60 * 1000 →
      pmGet pid (cleanupExpired now
        (getPaymentStatus pid now st).2).pendingMints = none) := by
  refine ⟨getPaymentStatus_snd pid now st, ?_, ?_⟩
  · intro hf
    cases hget : pmGet pid st.pendingMints with
    | none => simp [getPaymentStatus, hget] at hf
    | some e => exact ⟨e, rfl⟩
  · intro e hnd hget hage
    rw [getPaymentStatus_snd]
    exact pmGet_filter_none pid e _ st.pendingMints hnd
      (mem_of_pmGet pid e st.pendingMints hget) (by simp [hage])

/-- C10, witness at the over-age record `p3` of the concrete run. -/
theorem c10_status_query_is_pure_witness :
    (getPaymentStatus "p3" (31 * 60 * 1000) exLate).2 = exLate ∧
    (∃ e, pmGet "p3" exLate.pendingMints = some e) ∧
    pmGet "p3" (cleanupExpired (31 * 60 * 1000)
      (getPaymentStatus "p3" (31 * 60 * 1000) exLate).2).pendingMints =
      none :=
  ⟨(c10_status_query_is_pure "p3" (31 * 60 * 1000) exLate).1,
   (c10_status_query_is_pure "p3" (31 * 60 * 1000) exLate).2.1 (by decide),
   (c10_status_query_is_pure "p3" (31 * 60 * 1000) exLate).2.2
     { userAddress := "0xccc", timestamp := 0,
       status := "waiting_for_payment" }
     (by unfold KeysNodup; decide) (by decide) (by decide)⟩

/-- C9: for a not-yet-seen decoded transfer log, the handler acts — marks
the hash seen and enqueues exactly one item (a match or a synthetic one) —
exactly when the lower-cased recipient equals the lower-cased collection
address and the amount is at least 1000000 base units; any other transfer
leaves the state byte-for-byte unchanged. -/
theorem c9_qualifying_gate (log : TransferLog) (now : Nat) (autoId : String)
    (st : Monitor) (hdup : log.transactionHash ∉ st.processedTxHashes) :
    ((lowerStr log.toAddr = lowerStr st.paymentAddress ∧
        1000000 ≤ log.value) →
      (handleUSDCTransfer log now autoId st).processedTxHashes =
        setAdd log.transactionHash st.processedTxHashes ∧
      log.transactionHash ∈
        (handleUSDCTransfer log now autoId st).processedTxHashes ∧
      (handleUSDCTransfer log now autoId st).mintQueue.length =
        st.mintQueue.length + 1) ∧
    (¬ (lowerStr log.toAddr = lowerStr st.paymentAddress ∧
        1000000 ≤ log.value) →
      handleUSDCTransfer log now autoId st = st) := by
  constructor
  · rintro ⟨hto, hval⟩
    unfold handleUSDCTransfer
    cases hfind : st.pendingMints.find?
        (fun p => p.2.userAddress == lowerStr log.fromAddr &&
          p.2.status == "waiting_for_payment") with
    | none =>
      simp [hdup, hto, Nat.not_lt.mpr hval, hfind, mem_setAdd]
    | some p =>
      obtain ⟨mpid, d⟩ := p
      simp [hdup, hto, Nat.not_lt.mpr hval, hfind, mem_setAdd]
  · intro hneg
    have hcond : lowerStr log.toAddr ≠ lowerStr st.paymentAddress ∨
        log.value < 1000000 := by
      by_cases hA : lowerStr log.toAddr = lowerStr st.paymentAddress
      · right
        exact Nat.lt_of_not_le (fun hB => hneg ⟨hA, hB⟩)
      · left
        exact hA
    unfold handleUSDCTransfer
    simp [hdup, hcond]

/-- A transfer of a single base unit, far below the 1000000 requirement. -/
def exDustLog : TransferLog :=
  { transactionHash := "0xtx7", fromAddr := "0xAAA", toAddr := "0xPAY",
    value := 1 }

/-- C9, witness: the qualifying transfer of the concrete run acts, and a
1-base-unit transfer to the right address is silently ignored. -/
theorem c9_qualifying_gate_witness :
    ((handleUSDCTransfer exLog 300 "auto-1" exTwo).processedTxHashes =
        setAdd "0xtx1" exTwo.processedTxHashes ∧
      "0xtx1" ∈ (handleUSDCTransfer exLog 300 "auto-1"
        exTwo).processedTxHashes ∧
      (handleUSDCTransfer exLog 300 "auto-1" exTwo).mintQueue.length =
        exTwo.mintQueue.length + 1) ∧
    handleUSDCTransfer exDustLog 300 "auto-7" exTwo = exTwo :=
  ⟨(c9_qualifying_gate exLog 300 "auto-1" exTwo (by decide)).1
      ⟨by decide, by decide⟩,
   (c9_qualifying_gate exDustLog 300 "auto-7" exTwo (by decide)).2
      (by decide)⟩

/-- Ledger keys that are absent stay absent across the transfer handler:
`handleUSDCTransfer` updates at most the key returned by the matcher scan
(which is present in the ledger) and never inserts a key. -/
theorem handleUSDCTransfer_absent_key (log : TransferLog) (now : Nat)
    (autoId : String) (st : Monitor) (pid : String)
    (h : pmGet pid st.pendingMints = none) :
    pmGet pid (handleUSDCTransfer log now autoId st).pendingMints = none := by
  unfold handleUSDCTransfer
  by_cases h1 : log.transactionHash ∈ st.processedTxHashes
  · simp [h1, h]
  · by_cases h2 : lowerStr log.toAddr ≠ lowerStr st.paymentAddress ∨
        log.value < 1000000
    · simp [h1, h2, h]
    · cases hfind : st.pendingMints.find?
          (fun p => p.2.userAddress == lowerStr log.fromAddr &&
            p.2.status == "waiting_for_payment") with
      | none => simp [h1, h2, hfind, h]
      | some p =>
        obtain ⟨mpid, d⟩ := p
        have hmem : (mpid, d) ∈ st.pendingMints :=
          List.mem_of_find?_eq_some hfind
        have hkeys : pid ∉ st.pendingMints.map Prod.fst :=
          not_mem_keys_of_pmGet_none pid st.pendingMints h
        have hne : pid ≠ mpid := by
          intro he
          apply hkeys
          rw [he]
          exact List.mem_map_of_mem Prod.fst hmem
        simp [h1, h2, hfind, pmGet_set_ne mpid pid _ st.pendingMints hne, h]

/-- C6, counterexample: request `p3` was created at time 0; at 31 minutes —
past the 30-minute window, the status endpoint already reports it
`expired` — a qualifying transfer from its address still matches it: the
handler has no age check, so status becomes `payment_received` and
`paymentTxHash` is set.  This refutes the claim that a late payment is
never matched to a request older than the window. -/
theorem c6_late_transfer_still_matches :
    (pmGet "p3" exLate.pendingMints).map (fun d => (d.status, d.timestamp)) =
      some ("waiting_for_payment", 0) ∧
    (getPaymentStatus "p3" (31 * 60 * 1000) exLate).1.status =
      some "expired" ∧
    (pmGet "p3" exLatePaid.pendingMints).map (fun d => (d.status, d.txHash)) =
      some ("payment_received", some "0xtx9") := by
  decide

/-- C6, amended: the matcher ignores age, so a late transfer can match an
over-age request that is still stored (see the counterexample); what holds
is that `cleanupExpired` removes every request older than the window, and
once removed the request can never again be matched or updated — a transfer
handled after the sweep leaves the removed key absent. -/
theorem c6_swept_request_never_matched (now : Nat) (st : Monitor)
    (pid : String) (e : MintData) (hnd : KeysNodup st)
    (hget : pmGet pid st.pendingMints = some e)
    (hage : now - e.timestamp > 30 * 60 * 1000) :
    pmGet pid (cleanupExpired now st).pendingMints = none ∧
    ∀ log now2 autoId,
      pmGet pid (handleUSDCTransfer log now2 autoId
        (cleanupExpired now st)).pendingMints = none := by
  have h1 : pmGet pid (cleanupExpired now st).pendingMints = none :=
    pmGet_filter_none pid e _ st.pendingMints hnd
      (mem_of_pmGet pid e st.pendingMints hget) (by simp [hage])
  exact ⟨h1, fun log now2 autoId =>
    handleUSDCTransfer_absent_key log now2 autoId _ pid h1⟩

/-- C6, witness for the amended statement: the over-age `p3` is swept, and
the late transfer handled after the sweep no longer finds it. -/
theorem c6_swept_request_never_matched_witness :
    pmGet "p3" (cleanupExpired (31 * 60 * 1000) exLate).pendingMints =
      none ∧
    pmGet "p3" (handleUSDCTransfer exLateLog (32 * 60 * 1000) "auto-9"
      (cleanupExpired (31 * 60 * 1000) exLate)).pendingMints = none :=
  ⟨(c6_swept_request_never_matched (31 * 60 * 1000) exLate "p3"
      { userAddress := "0xccc", timestamp := 0,
        status := "waiting_for_payment" }
      (by unfold KeysNodup; decide) (by decide) (by decide)).1,
   (c6_swept_request_never_matched (31 * 60 * 1000) exLate "p3"
      { userAddress := "0xccc", timestamp := 0,
        status := "waiting_for_payment" }
      (by unfold KeysNodup; decide) (by decide) (by decide)).2
     exLateLog (32 * 60 * 1000) "auto-9"⟩

/-- C4: two `request-mint` calls for the same address before any payment
store two records (under the two distinct fresh ids the generator returned),
both `waiting_for_payment`; one qualifying transfer from that address then
flips exactly the earliest-created one to `payment_received` with
`paymentTxHash` and `paidAt` set, and leaves the second untouched in
`waiting_for_payment` — the matcher scans the `Map` in insertion order and
stops at the first hit. -/
theorem c4_insertion_order_first_match
    (payAddr addr pid1 pid2 autoId : String) (t1 t2 now : Nat)
    (log : TransferLog)
    (hne : pid1 ≠ pid2)
    (hfrom : lowerStr log.fromAddr = lowerStr addr)
    (hto : lowerStr log.toAddr = lowerStr payAddr)
    (hval : 1000000 ≤ log.value) :
    pmGet pid1 (createPaymentInstructions pid2 t2 addr
        (createPaymentInstructions pid1 t1 addr
          (initMonitor payAddr))).pendingMints =
      some { userAddress := lowerStr addr, timestamp := t1,
             status := "waiting_for_payment" } ∧
    pmGet pid2 (createPaymentInstructions pid2 t2 addr
        (createPaymentInstructions pid1 t1 addr
          (initMonitor payAddr))).pendingMints =
      some { userAddress := lowerStr addr, timestamp := t2,
             status := "waiting_for_payment" } ∧
    pmGet pid1 (handleUSDCTransfer log now autoId
        (createPaymentInstructions pid2 t2 addr
          (createPaymentInstructions pid1 t1 addr
            (initMonitor payAddr)))).pendingMints =
      some { userAddress := lowerStr addr, timestamp := t1,
             status := "payment_received",
             txHash := some log.transactionHash, paidAt := some now } ∧
    pmGet pid2 (handleUSDCTransfer log now autoId
        (createPaymentInstructions pid2 t2 addr
          (createPaymentInstructions pid1 t1 addr
            (initMonitor payAddr)))).pendingMints =
      some { userAddress := lowerStr addr, timestamp := t2,
             status := "waiting_for_payment" } := by
  have hpm2 : (createPaymentInstructions pid2 t2 addr
      (createPaymentInstructions pid1 t1 addr
        (initMonitor payAddr))).pendingMints =
      [(pid1, { userAddress := lowerStr addr, timestamp := t1,
                status := "waiting_for_payment" }),
       (pid2, { userAddress := lowerStr addr, timestamp := t2,
                status := "waiting_for_payment" })] := by
    simp [createPaymentInstructions, initMonitor, pmSet, hne]
  have hg1 : pmGet pid1 (createPaymentInstructions pid2 t2 addr
      (createPaymentInstructions pid1 t1 addr
        (initMonitor payAddr))).pendingMints =
      some { userAddress := lowerStr addr, timestamp := t1,
             status := "waiting_for_payment" } := by
    rw [hpm2, pmGet_cons]
    simp
  have hg2 : pmGet pid2 (createPaymentInstructions pid2 t2 addr
      (createPaymentInstructions pid1 t1 addr
        (initMonitor payAddr))).pendingMints =
      some { userAddress := lowerStr addr, timestamp := t2,
             status := "waiting_for_payment" } := by
    rw [hpm2, pmGet_cons]
    simp [hne, pmGet_cons]
  have hpa : (createPaymentInstructions pid2 t2 addr
      (createPaymentInstructions pid1 t1 addr
        (initMonitor payAddr))).paymentAddress = payAddr := rfl
  have hproc : (createPaymentInstructions pid2 t2 addr
      (createPaymentInstructions pid1 t1 addr
        (initMonitor payAddr))).processedTxHashes = ([] : List String) := rfl
  have hpm3 : (handleUSDCTransfer log now autoId
      (createPaymentInstructions pid2 t2 addr
        (createPaymentInstructions pid1 t1 addr
          (initMonitor payAddr)))).pendingMints =
      [(pid1, { userAddress := lowerStr addr, timestamp := t1,
                status := "payment_received",
                txHash := some log.transactionHash,
                paidAt := some now }),
       (pid2, { userAddress := lowerStr addr, timestamp := t2,
                status := "waiting_for_payment" })] := by
    simp only [handleUSDCTransfer, hpa, hproc, hpm2]
    simp [hto, hfrom, Nat.not_lt.mpr hval, pmSet, List.find?_cons]
  refine ⟨hg1, hg2, ?_, ?_⟩
  · rw [hpm3, pmGet_cons]
    simp
  · rw [hpm3, pmGet_cons]
    simp [hne, pmGet_cons]

/-- C4, witness at the concrete run: ids `p1` and `p2` for user `0xAAA`,
then the qualifying transfer `0xtx1`. -/
theorem c4_insertion_order_first_match_witness :
    pmGet "p1" exTwo.pendingMints =
      some { userAddress := lowerStr "0xAAA", timestamp := 100,
             status := "waiting_for_payment" } ∧
    pmGet "p2" exTwo.pendingMints =
      some { userAddress := lowerStr "0xAAA", timestamp := 200,
             status := "waiting_for_payment" } ∧
    pmGet "p1" (handleUSDCTransfer exLog 300 "auto-1" exTwo).pendingMints =
      some { userAddress := lowerStr "0xAAA", timestamp := 100,
             status := "payment_received", txHash := some "0xtx1",
             paidAt := some 300 } ∧
    pmGet "p2" (handleUSDCTransfer exLog 300 "auto-1" exTwo).pendingMints =
      some { userAddress := lowerStr "0xAAA", timestamp := 200,
             status := "waiting_for_payment" } :=
  c4_insertion_order_first_match "0xPAY" "0xAAA" "p1" "p2" "auto-1"
    100 200 300 exLog (by decide) (by decide) (by decide) (by decide)

/-- Case analysis of the transfer handler on the ledger: either it leaves
`pendingMints` unchanged, or the matcher scan found a waiting record and
exactly that key is rewritten to the paid version. -/
theorem handleUSDCTransfer_pendingMints_cases (log : TransferLog) (now : Nat)
    (autoId : String) (st : Monitor) :
    (handleUSDCTransfer log now autoId st).pendingMints = st.pendingMints ∨
    ∃ mpid d,
      st.pendingMints.find?
        (fun p => p.2.userAddress == lowerStr log.fromAddr &&
          p.2.status == "waiting_for_payment") = some (mpid, d) ∧
      (handleUSDCTransfer log now autoId st).pendingMints =
        pmSet mpid
          { d with status := "payment_received",
                   txHash := some log.transactionHash,
                   paidAt := some now } st.pendingMints := by
  unfold handleUSDCTransfer
  by_cases h1 : log.transactionHash ∈ st.processedTxHashes
  · left
    simp [h1]
  · by_cases h2 : lowerStr log.toAddr ≠ lowerStr st.paymentAddress ∨
        log.value < 1000000
    · left
      simp [h1, h2]
    · cases hfind : st.pendingMints.find?
          (fun p => p.2.userAddress == lowerStr log.fromAddr &&
            p.2.status == "waiting_for_payment") with
      | none =>
        left
        simp [h1, h2, hfind]
      | some p =>
        obtain ⟨mpid, d⟩ := p
        right
        refine ⟨mpid, d, rfl, ?_⟩
        simp [h1, h2, hfind]


/-- C7: across every operation of the monitor (request creation with a
fresh id, transfer handling, a dispatcher step, a status query, the expiry
sweep), a ledger record's `paymentTxHash`, once set, keeps its value, and no
record in `payment_received` or any later state ever returns to
`waiting_for_payment`; moreover the two structural invariants used — keys
are unique and waiting records carry no `txHash` yet — are themselves
preserved by every operation. -/
theorem c7_forward_only (op : Op) (st : Monitor)
    (hnd : KeysNodup st) (hw : WaitingNoTx st) (hf : freshOp op st) :
    (∀ pid e e', pmGet pid st.pendingMints = some e →
        pmGet pid (applyOp op st).pendingMints = some e' →
        (∀ h, e.txHash = some h → e'.txHash = some h) ∧
        (e.status ≠ "waiting_for_payment" →
          e'.status ≠ "waiting_for_payment")) ∧
    WaitingNoTx (applyOp op st) ∧ KeysNodup (applyOp op st) := by
  cases op with
  | create pid0 now0 a0 =>
    have hfresh : pmGet pid0 st.pendingMints = none := hf
    have hkeys : pid0 ∉ st.pendingMints.map Prod.fst :=
      not_mem_keys_of_pmGet_none pid0 st.pendingMints hfresh
    have hset : (applyOp (.create pid0 now0 a0) st).pendingMints =
        st.pendingMints ++
          [(pid0, { userAddress := lowerStr a0, timestamp := now0,
                    status := "waiting_for_payment" })] := by
      simp [applyOp, createPaymentInstructions,
        pmSet_of_not_mem pid0 _ st.pendingMints hkeys]
    refine ⟨?_, ?_, ?_⟩
    · intro pid e eq2 hg hg2
      rw [hset, pmGet_append_left pid e st.pendingMints _ hg] at hg2
      injection hg2 with he
      subst he
      exact ⟨fun h hh => hh, fun hs => hs⟩
    · intro p hp hst
      rw [hset] at hp
      rcases List.mem_append.mp hp with hp | hp
      · exact hw p hp hst
      · simp at hp
        rw [hp]
    · unfold KeysNodup
      rw [hset, List.map_append]
      simp [List.nodup_append, List.disjoint_singleton]
      exact ⟨hnd, fun x hx => hkeys (List.mem_map_of_mem Prod.fst hx)⟩
  | transfer log0 now0 auto0 =>
    rcases handleUSDCTransfer_pendingMints_cases log0 now0 auto0 st with hsame |
      ⟨mpid, d, hfind, hset⟩
    · refine ⟨?_, ?_, ?_⟩
      · intro pid e e2 hg hg2
        simp only [applyOp] at hg2
        rw [hsame, hg] at hg2
        injection hg2 with he
        subst he
        exact ⟨fun h hh => hh, fun hs => hs⟩
      · intro p hp hst
        simp only [applyOp] at hp
        rw [hsame] at hp
        exact hw p hp hst
      · unfold KeysNodup
        simp only [applyOp]
        rw [hsame]
        exact hnd
    · have hdstat : d.status = "waiting_for_payment" := by
        have hpred := List.find?_some hfind
        simp at hpred
        exact hpred.2
      have hdmem : (mpid, d) ∈ st.pendingMints :=
        List.mem_of_find?_eq_some hfind
      have hmkeys : mpid ∈ st.pendingMints.map Prod.fst :=
        List.mem_map_of_mem Prod.fst hdmem
      refine ⟨?_, ?_, ?_⟩
      · intro pid e e2 hg hg2
        simp only [applyOp] at hg2
        rw [hset] at hg2
        by_cases hpe : pid = mpid
        · subst hpe
          have he : e = d :=
            pmGet_unique pid e d st.pendingMints hnd
              (mem_of_pmGet pid e st.pendingMints hg) hdmem
          constructor
          · intro h hh
            exfalso
            have hnone := hw (pid, d) hdmem hdstat
            rw [he] at hh
            rw [hnone] at hh
            cases hh
          · intro hs
            exfalso
            rw [he, hdstat] at hs
            exact hs rfl
        · rw [pmGet_set_ne mpid pid _ st.pendingMints hpe] at hg2
          rw [hg] at hg2
          injection hg2 with he
          subst he
          exact ⟨fun h hh => hh, fun hs => hs⟩
      · intro p hp hst
        simp only [applyOp] at hp
        rw [hset] at hp
        rcases mem_pmSet mpid _ p st.pendingMints hp with hp2 | hp2
        · rw [hp2] at hst
          simp at hst
        · exact hw p hp2 hst
      · unfold KeysNodup
        simp only [applyOp]
        rw [hset, pmSet_keys_of_mem mpid _ st.pendingMints hmkeys]
        exact hnd
  | dispatch o =>
    have hsame := processMintQueueStep_pendingMints o st
    refine ⟨?_, ?_, ?_⟩
    · intro pid e e2 hg hg2
      simp only [applyOp] at hg2
      rw [hsame, hg] at hg2
      injection hg2 with he
      subst he
      exact ⟨fun h hh => hh, fun hs => hs⟩
    · intro p hp hst
      simp only [applyOp] at hp
      rw [hsame] at hp
      exact hw p hp hst
    · unfold KeysNodup
      simp only [applyOp]
      rw [hsame]
      exact hnd
  | status pid0 now0 =>
    have hsame : applyOp (.status pid0 now0) st = st :=
      getPaymentStatus_snd pid0 now0 st
    rw [hsame]
    refine ⟨?_, hw, hnd⟩
    intro pid e e2 hg hg2
    rw [hg] at hg2
    injection hg2 with he
    subst he
    exact ⟨fun h hh => hh, fun hs => hs⟩
  | sweep now0 =>
    have hpm : (applyOp (.sweep now0) st).pendingMints =
        st.pendingMints.filter
          (fun p => ¬ (now0 - p.2.timestamp > 30 * 60 * 1000)) := rfl
    refine ⟨?_, ?_, ?_⟩
    · intro pid e e2 hg hg2
      rw [hpm] at hg2
      have hmem2 := mem_of_pmGet pid e2 _ hg2
      have hmem2a : (pid, e2) ∈ st.pendingMints :=
        (List.mem_filter.mp hmem2).1
      have he : e2 = e :=
        pmGet_unique pid e2 e st.pendingMints hnd hmem2a
          (mem_of_pmGet pid e st.pendingMints hg)
      constructor
      · intro h hh
        rw [he]
        exact hh
      · intro hs
        rw [he]
        exact hs
    · intro p hp hst
      rw [hpm] at hp
      exact hw p (List.mem_filter.mp hp).1 hst
    · unfold KeysNodup
      rw [hpm]
      exact List.Nodup.sublist ((List.filter_sublist _).map Prod.fst) hnd

/-- C7, witness: the invariants hold after the matching transfer of the
concrete run. -/
theorem c7_forward_only_witness :
    WaitingNoTx (applyOp (.transfer exLog 300 "auto-1") exTwo) ∧
    KeysNodup (applyOp (.transfer exLog 300 "auto-1") exTwo) :=
  (c7_forward_only (.transfer exLog 300 "auto-1") exTwo
    (by unfold KeysNodup; decide) (by unfold WaitingNoTx; decide)
    trivial).2

end OneMint
